import Mathlib

/-!
Verification development for the Domain runtime of a dataflow engine
(`src/flow/domain/mod.rs`).  The Rust code is shallowly embedded: pure data
is translated to Lean structures, the `&mut self` methods become explicit
state-passing functions, Rust panics (asserts, `unwrap`, indexing a missing
key, `unreachable!`) become an explicit error outcome, and the recursion of
`dispatch` (which in Rust uses the call stack) is bounded by an explicit
fuel parameter.  Channel sends become event lists.
-/

set_option autoImplicit false

/-- A single data value inside a row (`DataType` is opaque to the Domain). -/
abbrev DataType := Nat

/-- A row, `Vec<DataType>` in the source (`Arc` sharing is irrelevant to values). -/
abbrev Row := List DataType

/-- `NodeAddress`: a (domain index, local node index) pair.  The Domain code
only ever extracts the local half via `as_local()`, modelled by `loc`. -/
structure NodeAddress where
  dom : Nat
  loc : Nat
deriving DecidableEq, Repr

/-- `ops::Record`: a positive or negative row delta. -/
inductive Record where
  | pos (r : Row)
  | neg (r : Row)
deriving DecidableEq, Repr

/-- `Message` from `flow::prelude`: addressed records with an optional
transaction stamp `(timestamp, base node)` and an optional token (the token
payload is opaque to `dispatch`, so it is modelled by a `Nat`). -/
structure Message where
  from_ : NodeAddress
  to_ : NodeAddress
  data : List Record
  ts : Option (Int × Nat)
  token : Option Nat
deriving DecidableEq, Repr

/-- Modelled from the spec: `State` (flow::prelude, not under `src/`) is a
mapping from primary-key value to the rows holding that key, plus the primary
key column; cloning copies the value and mutating the clone does not affect
the original, which holds by construction for a pure value. -/
structure State where
  pkey : Option Nat
  rows : List (DataType × List Row)
deriving DecidableEq, Repr

/-- The rows of a sequence of per-key row groups, flattened in group order
(the view `flat_map(|(_, rs)| rs)` exposes). -/
def flattenGroups (l : List (DataType × List Row)) : List Row :=
  (l.map Prod.snd).flatten

/-- The rows of a state in iteration order:
`state.into_iter().flat_map(|(_, rs)| rs)`. -/
def stateRows (s : State) : List Row :=
  flattenGroups s.rows

/-- Modelled from the spec: the operator variants of `flow::node::Type` (§3);
only the `TimestampEgress` discrimination is observed by the Domain code
under verification. -/
inductive NodeType where
  | ingress
  | egress
  | timestampEgress
  | base
  | reader
  | internal
deriving DecidableEq, Repr

/-- What a node's `process` returns when it produces something:
`(Records, Option<(i64, NodeIndex)>, Option<token>)`. -/
abbrev ProcOut := Option (List Record × Option (Int × Nat) × Option Nat)

/-- Modelled from the spec: `NodeDescriptor` (domain/single.rs, not under
`src/`).  `process` is the black-box operator implementation: it receives the
swap flag the Domain passes, the message and the state map, and returns the
mutated state map together with its optional output. `is_output` is the
node's output classification, also opaque to the Domain. -/
structure Node where
  addr : NodeAddress
  children : List NodeAddress
  inner : NodeType
  is_output : Bool
  process : Bool → Message → List (Nat × State) → List (Nat × State) × ProcOut

/-- `StateMap`: per-node materialized state keyed by local node index. -/
abbrev StateMap := List (Nat × State)

/-- `BufferedTransaction`: per-timestamp staging entries.  The
`MigrationStart` ack channel carries no data, so it is dropped; channel sends
are modelled as events where they matter. -/
inductive BufferedTransaction where
  | remote
  | transaction (base : Nat) (messages : List Message)
  | migrationStart
  | migrationEnd (ingress_from_base : List (Nat × Nat))
deriving DecidableEq, Repr

/-- The Domain state (`struct Domain`).  The external checktable handle is
not part of the state observed by the verified operations and is omitted. -/
structure Domain where
  nodes : List Node
  state : StateMap
  buffered_transactions : List (Int × BufferedTransaction)
  ingress_from_base : List (Nat × Nat)
  ts : Int
  not_ready : List Nat
  replaying_to : Option (Nat × List Message)

/-- Panic/abort outcomes of the embedded code: a failed `assert!`, a failed
`unwrap`/`expect`, indexing a missing key, `unreachable!()`, or running out
of recursion fuel. -/
inductive DErr where
  | fuelOut
  | missingNode
  | assertFail
  | unwrapFail
  | unreachableCode
deriving DecidableEq, Repr

/-- Lookup in the per-timestamp buffer (`HashMap<i64, BufferedTransaction>`). -/
def lookupBT (l : List (Int × BufferedTransaction)) (t : Int) : Option BufferedTransaction :=
  match l with
  | [] => none
  | p :: rest => if p.1 = t then some p.2 else lookupBT rest t

/-- Remove a timestamp key from the buffer (`Entry::remove` / `HashMap::remove`). -/
def eraseBT (l : List (Int × BufferedTransaction)) (t : Int) : List (Int × BufferedTransaction) :=
  match l with
  | [] => []
  | p :: rest => if p.1 = t then rest else p :: eraseBT rest t

/-- Insert a fresh timestamp key into the buffer (callers check freshness). -/
def insertBT (l : List (Int × BufferedTransaction)) (t : Int) (e : BufferedTransaction) :
    List (Int × BufferedTransaction) :=
  (t, e) :: l

/-- Lookup in `ingress_from_base : HashMap<NodeIndex, usize>`. -/
def lookupNat (l : List (Nat × Nat)) (k : Nat) : Option Nat :=
  match l with
  | [] => none
  | p :: rest => if p.1 = k then some p.2 else lookupNat rest k

/-- Lookup a node by its local index (`self.nodes[addr.as_local()]`). -/
def findNode (nodes : List Node) (l : Nat) : Option Node :=
  match nodes with
  | [] => none
  | n :: rest => if n.addr.loc = l then some n else findNode rest l

/-- Lookup a node's materialized state (`self.state.get(local)`). -/
def findState (st : StateMap) (l : Nat) : Option State :=
  match st with
  | [] => none
  | p :: rest => if p.1 = l then some p.2 else findState rest l

/-- The per-address output map built by `dispatch`
(`HashMap<NodeAddress, Vec<ops::Record>>`), as an association list. -/
abbrev OutMap := List (NodeAddress × List Record)

/-- `output_messages.entry(k).or_insert_with(Vec::new).append(&mut v)`. -/
def mergeOut (l : OutMap) (k : NodeAddress) (v : List Record) : OutMap :=
  match l with
  | [] => [(k, v)]
  | p :: rest => if p.1 = k then (p.1, p.2 ++ v) :: rest else p :: mergeOut rest k v

/-- Merging a whole returned map into the accumulator, entry by entry. -/
def mergeOutAll (acc : OutMap) (new : OutMap) : OutMap :=
  new.foldl (fun a p => mergeOut a p.1 p.2) acc

/-- Lookup in an output map. -/
def lookupOut (l : OutMap) (k : NodeAddress) : Option (List Record) :=
  match l with
  | [] => none
  | p :: rest => if p.1 = k then some p.2 else lookupOut rest k

/-- `Entry::remove` on an output map. -/
def eraseOut (l : OutMap) (k : NodeAddress) : OutMap :=
  match l with
  | [] => []
  | p :: rest => if p.1 = k then rest else p :: eraseOut rest k

/-- Result of one `dispatch` invocation: the returned output map, the updated
`replaying_to` cursor, the updated state map, and — as pure instrumentation —
the local indices whose `process` was invoked, in invocation order. -/
structure DispatchRes where
  out : OutMap
  cursor : Option (Nat × List Message)
  states : StateMap
  processed : List Nat
deriving DecidableEq, Repr

/-- The target of the replay cursor, if any. -/
def cursorTarget : Option (Nat × List Message) → Option Nat
  | some p => some p.1
  | none => none

/-- The `for i in 0..n.children.len()` loop of `dispatch`: the parent's
result `u` is sent to each child; an output child with disabled output is
accumulated into the map instead of being recursed into.  The recursive
dispatch call is abstracted as `dF` (instantiated with one fuel less). -/
def dispatchChildren
    (dF : Message → Option (Nat × List Message) → StateMap → Except DErr DispatchRes)
    (me : NodeAddress) (u : List Record × Option (Int × Nat) × Option Nat)
    (nodes : List Node) (en : Bool) :
    List NodeAddress → Option (Nat × List Message) → StateMap → OutMap → List Nat →
    Except DErr DispatchRes
  | [], cur, st, acc, tr => .ok ⟨acc, cur, st, tr⟩
  | c :: rest, cur, st, acc, tr =>
    match findNode nodes c.loc with
    | none => .error .missingNode
    | some cn =>
      if en || !cn.is_output then
        match dF ⟨me, c, u.1, u.2.1, u.2.2⟩ cur st with
        | .error e => .error e
        | .ok r =>
          dispatchChildren dF me u nodes en rest r.cursor r.states
            (mergeOutAll acc r.out) (tr ++ r.processed)
      else
        dispatchChildren dF me u nodes en rest cur st (mergeOut acc c u.1) tr

/-- The body of `dispatch` after the replay-cursor check: the readiness
check, the `process` call, the transactional empty-update synthesis, and the
children loop. -/
def dispatchCore
    (dF : Message → Option (Nat × List Message) → StateMap → Except DErr DispatchRes)
    (m : Message) (nr : List Nat) (cur : Option (Nat × List Message))
    (st : StateMap) (nodes : List Node) (en : Bool) : Except DErr DispatchRes :=
  if !nr.isEmpty && nr.contains m.to_.loc then
    .ok ⟨[], cur, st, []⟩
  else
    match findNode nodes m.to_.loc with
    | none => .error .missingNode
    | some n =>
      let pr := n.process true m st
      let u1 : ProcOut :=
        match m.ts, pr.2 with
        | some mts, none => some ([], some mts, none)
        | _, u => u
      match u1 with
      | none => .ok ⟨[], cur, pr.1, [m.to_.loc]⟩
      | some u => dispatchChildren dF m.to_ u nodes en n.children cur pr.1 [] [m.to_.loc]

/-- `Domain::dispatch`: depth-first propagation of one message.  The Rust
recursion through the call stack is bounded by `fuel`; exhausting it is the
`fuelOut` outcome, never reported as a successful result. -/
def dispatch : Nat → Message → List Nat → Option (Nat × List Message) → StateMap →
    List Node → Bool → Except DErr DispatchRes
  | 0, _, _, _, _, _, _ => .error .fuelOut
  | fuel + 1, m, nr, cur, st, nodes, en =>
    match cur with
    | some (bufnode, buffered) =>
      if bufnode = m.to_.loc then
        .ok ⟨[], some (bufnode, buffered ++ [m]), st, []⟩
      else
        dispatchCore (fun m2 cur2 st2 => dispatch fuel m2 nr cur2 st2 nodes en)
          m nr (some (bufnode, buffered)) st nodes en
    | none =>
        dispatchCore (fun m2 cur2 st2 => dispatch fuel m2 nr cur2 st2 nodes en)
          m nr none st nodes en

/-- The per-message half of `Domain::transactional_dispatch`: each message is
dispatched with `enable_output = false` and the returned per-address batches
are concatenated into `egress_messages`. -/
def collectEgress (dfuel : Nat) (nr : List Nat) (nodes : List Node) :
    List Message → OutMap → Option (Nat × List Message) → StateMap →
    Except DErr (OutMap × Option (Nat × List Message) × StateMap)
  | [], eg, cur, st => .ok (eg, cur, st)
  | m :: ms, eg, cur, st =>
    match dispatch dfuel m nr cur st nodes false with
    | .error e => .error e
    | .ok r => collectEgress dfuel nr nodes ms (mergeOutAll eg r.out) r.cursor r.states

/-- The output-feeding half of `Domain::transactional_dispatch`: every output
node gets its accumulated batch removed from the map and, unless the node is
in the not-ready set, is fed one synthesized message; the messages actually
fed are returned as instrumentation, in feeding order.  The final
`assert_eq!(children.len(), 0)` is the `assertFail` outcome. -/
def feedOutputs (nr : List Nat) (allNodes : List Node) (mts : Option (Int × Nat)) :
    List Node → OutMap → StateMap →
    Except DErr (OutMap × StateMap × List Message)
  | [], eg, st => .ok (eg, st, [])
  | n :: rest, eg, st =>
    if n.is_output then
      let de : List Record × OutMap :=
        match lookupOut eg n.addr with
        | some v => (v, eraseOut eg n.addr)
        | none => ([], eg)
      let m : Message := ⟨n.addr, n.addr, de.1, mts, none⟩
      if !nr.isEmpty && nr.contains n.addr.loc then
        feedOutputs nr allNodes mts rest de.2 st
      else
        match findNode allNodes n.addr.loc with
        | none => .error .missingNode
        | some n2 =>
          let st1 := (n2.process true m st).1
          if n.children.isEmpty then
            match feedOutputs nr allNodes mts rest de.2 st1 with
            | .error e => .error e
            | .ok (eg3, st3, feeds) => .ok (eg3, st3, m :: feeds)
          else .error .assertFail
    else
      feedOutputs nr allNodes mts rest eg st

/-- `Domain::transactional_dispatch`: asserts the batch nonempty, takes the
timestamp of the first message, collects per-output batches with output
disabled, then feeds every output node.  Returns the updated domain and the
synthesized messages that were actually fed to output nodes. -/
def transactional_dispatch (dfuel : Nat) (d : Domain) (messages : List Message) :
    Except DErr (Domain × List Message) :=
  match messages with
  | [] => .error .assertFail
  | m0 :: _ =>
    match collectEgress dfuel d.not_ready d.nodes messages [] d.replaying_to d.state with
    | .error e => .error e
    | .ok (eg, cur, st) =>
      match feedOutputs d.not_ready d.nodes m0.ts d.nodes eg st with
      | .error e => .error e
      | .ok (_, st2, feeds) =>
        .ok ({ d with state := st2, replaying_to := cur }, feeds)

/-- What the spec says `transactional_dispatch` feeds (amended by the
readiness check the source applies): for every output node that is not in
the not-ready set, one message whose data is the batch accumulated under the
node's address (empty if none), with the batch timestamp and
`from == to == addr`. -/
def expectedFeeds (nr : List Nat) (eg : OutMap) (mts : Option (Int × Nat)) :
    List Node → List Message
  | [] => []
  | n :: rest =>
    if n.is_output && !(!nr.isEmpty && nr.contains n.addr.loc) then
      ⟨n.addr, n.addr, (lookupOut eg n.addr).getD [], mts, none⟩ ::
        expectedFeeds nr eg mts rest
    else expectedFeeds nr eg mts rest

/-- One consumed buffer entry, recorded when `apply_transactions` advances
`self.ts` past it: the entry's timestamp, the entry, and — as
instrumentation — the `ingress_from_base` map at the moment of release. -/
structure Consumed where
  ts : Int
  entry : BufferedTransaction
  ing : List (Nat × Nat)
deriving DecidableEq, Repr

/-- Result of a run of `apply_transactions`: the final domain, the entries
consumed in order, and whether the run aborted in a panic. -/
structure ATRes where
  dom : Domain
  trace : List Consumed
  panicked : Bool

/-- The `while` loop of `Domain::apply_transactions`, with fuel.  An
iteration consumes the entry at `self.ts + 1` if it exists and (for normal
transactions) has gathered at least `ingress_from_base[base]` messages; a
missing base count is the Rust index panic, and a panic inside
`transactional_dispatch` aborts with the entry already removed. -/
def applyTransactionsGo (dfuel : Nat) : Nat → Domain → ATRes
  | 0, d => ⟨d, [], false⟩
  | fuel + 1, d =>
    if d.buffered_transactions.isEmpty then ⟨d, [], false⟩
    else
      match lookupBT d.buffered_transactions (d.ts + 1) with
      | none => ⟨d, [], false⟩
      | some e =>
        match e with
        | .transaction base msgs =>
          match lookupNat d.ingress_from_base base with
          | none => ⟨d, [], true⟩
          | some c =>
            if msgs.length < c then ⟨d, [], false⟩
            else
              let d1 : Domain :=
                { d with buffered_transactions := eraseBT d.buffered_transactions (d.ts + 1) }
              match transactional_dispatch dfuel d1 msgs with
              | .error _ => ⟨d1, [], true⟩
              | .ok (d2, _) =>
                let r := applyTransactionsGo dfuel fuel { d2 with ts := d.ts + 1 }
                ⟨r.dom, ⟨d.ts + 1, e, d.ingress_from_base⟩ :: r.trace, r.panicked⟩
        | .remote =>
          let d1 : Domain :=
            { d with buffered_transactions := eraseBT d.buffered_transactions (d.ts + 1),
                     ts := d.ts + 1 }
          let r := applyTransactionsGo dfuel fuel d1
          ⟨r.dom, ⟨d.ts + 1, e, d.ingress_from_base⟩ :: r.trace, r.panicked⟩
        | .migrationStart =>
          let d1 : Domain :=
            { d with buffered_transactions := eraseBT d.buffered_transactions (d.ts + 1),
                     ts := d.ts + 1 }
          let r := applyTransactionsGo dfuel fuel d1
          ⟨r.dom, ⟨d.ts + 1, e, d.ingress_from_base⟩ :: r.trace, r.panicked⟩
        | .migrationEnd counts =>
          let d1 : Domain :=
            { d with buffered_transactions := eraseBT d.buffered_transactions (d.ts + 1),
                     ingress_from_base := counts,
                     ts := d.ts + 1 }
          let r := applyTransactionsGo dfuel fuel d1
          ⟨r.dom, ⟨d.ts + 1, e, d.ingress_from_base⟩ :: r.trace, r.panicked⟩

/-- `Domain::apply_transactions`.  Every loop iteration removes one buffer
entry, so the buffer size bounds the number of iterations and serves as
fuel; `dfuel` bounds the recursion depth of the inner `dispatch` calls. -/
def apply_transactions (dfuel : Nat) (d : Domain) : ATRes :=
  applyTransactionsGo dfuel d.buffered_transactions.length d

/-- `Control::StartMigration(ts, ack)`: insert the barrier at `ts` (fatal if
the key exists), then apply transactions if `ts == self.ts + 1`. -/
def handleStartMigration (dfuel : Nat) (d : Domain) (ts : Int) : ATRes :=
  match lookupBT d.buffered_transactions ts with
  | some _ => ⟨d, [], true⟩
  | none =>
    let d1 : Domain :=
      { d with buffered_transactions := insertBT d.buffered_transactions ts .migrationStart }
    if ts = d.ts + 1 then apply_transactions dfuel d1 else ⟨d1, [], false⟩

/-- `Control::CompleteMigration(ts, counts)`: insert the barrier at `ts`
(fatal if the key exists), assert `ts == self.ts + 1` (fatal otherwise), then
apply transactions unconditionally. -/
def handleCompleteMigration (dfuel : Nat) (d : Domain) (ts : Int)
    (counts : List (Nat × Nat)) : ATRes :=
  match lookupBT d.buffered_transactions ts with
  | some _ => ⟨d, [], true⟩
  | none =>
    let d1 : Domain :=
      { d with buffered_transactions := insertBT d.buffered_transactions ts (.migrationEnd counts) }
    if ts = d.ts + 1 then apply_transactions dfuel d1 else ⟨d1, [], true⟩

/-- `Domain::replay_done`: remove the node from the not-ready set; `take` the
replay cursor and assert that its target is this node and its buffer is
empty (fatal otherwise). -/
def replay_done (d : Domain) (node : Nat) : Except DErr Domain :=
  let d1 : Domain := { d with not_ready := d.not_ready.erase node }
  match d1.replaying_to with
  | none => .ok d1
  | some (target, buffered) =>
    if target = node then
      if buffered.isEmpty then .ok { d1 with replaying_to := none }
      else .error .assertFail
    else .error .assertFail

/-- Whether a `replay_done` run aborted in a panic. -/
def rdPanicked (r : Except DErr Domain) : Bool :=
  match r with
  | .error _ => true
  | .ok _ => false

/-- `ReplayBatch`: a full state snapshot or one in-flight chunk. -/
inductive ReplayBatch where
  | full (n : NodeAddress) (s : State)
  | partialMsg (m : Message)
deriving DecidableEq, Repr

/-- Observable effects of the source side of a replay. -/
inductive ReplayEvent where
  | ackSent
  | sent (b : ReplayBatch)
deriving DecidableEq, Repr

/-- `Domain::new`: all supplied nodes start not-ready except timestamp
egress nodes.  The checktable handle is external and omitted. -/
def Domain.new (nodes : List Node) (ts : Int) : Domain :=
  { nodes := nodes
    state := []
    buffered_transactions := []
    ingress_from_base := []
    ts := ts
    not_ready := nodes.filterMap (fun n =>
      match n.inner with
      | .timestampEgress => none
      | _ => some n.addr.loc)
    replaying_to := none }

/-- Fuel-bounded 1000-row chunking of a row sequence (the
`chunks(1000)` iterator in `Control::Replay`); the caller supplies the list
length as fuel, which suffices since every step drops at least one row. -/
def chunksGo : Nat → List Row → List (List Row)
  | 0, _ => []
  | fuel + 1, l => if l.isEmpty then [] else l.take 1000 :: chunksGo fuel (l.drop 1000)

/-- The 1000-row chunks of a row sequence. -/
def chunks1000 (l : List Row) : List (List Row) :=
  chunksGo l.length l

/-- The inner loop of `Control::Replay`'s chunk processing: push the message
through the path `nodes[1..]`, re-addressing between steps; `None` from
`process` abandons the chunk; visiting `nodes[0]` again is a failed assert. -/
def replayThroughPath (n0 : NodeAddress) (nodesList : List Node) :
    Message → List NodeAddress → StateMap → Except DErr (StateMap × Option Message)
  | m, [], st => .ok (st, some m)
  | m, ni :: restPath, st =>
    match findNode nodesList ni.loc with
    | none => .error .missingNode
    | some n =>
      if ni = n0 then .error .assertFail
      else
        let pr := n.process false m st
        match pr.2 with
        | none => .ok (pr.1, none)
        | some u =>
          let m1 : Message :=
            ⟨ni, (match restPath with | [] => ni | nx :: _ => nx), u.1, none, none⟩
          replayThroughPath n0 nodesList m1 restPath pr.1

/-- The chunk loop of `Control::Replay`: each 1000-row chunk is converted to
positive records, pushed through the path, and (when a sender is present and
the chunk survived) emitted as a `Partial` batch. -/
def replayChunks (n0 initTo : NodeAddress) (path : List NodeAddress)
    (nodesList : List Node) (tx : Bool) :
    List (List Row) → StateMap → Except DErr (StateMap × List ReplayEvent)
  | [], st => .ok (st, [])
  | chunk :: rest, st =>
    match replayThroughPath n0 nodesList ⟨n0, initTo, chunk.map Record.pos, none, none⟩ path st with
    | .error e => .error e
    | .ok (st1, mo) =>
      match replayChunks n0 initTo path nodesList tx rest st1 with
      | .error e => .error e
      | .ok (st2, evs) =>
        .ok (st2, (match mo with
                   | some m => if tx then ReplayEvent.sent (.partialMsg m) :: evs else evs
                   | none => evs))

/-- `Control::Replay(nodes, tx, ack)` (source side of a migration replay).
`tx` records whether a sender is present; sends become events.  The state of
`nodes[0]` is cloned up front (`expect` on a missing state is fatal); a
single-node path must have a sender (`unreachable!` otherwise) and sends the
full snapshot; a longer path installs the replay cursor when the sink is
local, streams 1000-row chunks through the path, and finishes with
`replay_done` on the sink when the sink is local. -/
def handleReplay (d : Domain) (nodes : List NodeAddress) (tx : Bool) :
    Except DErr (Domain × List ReplayEvent) :=
  match nodes with
  | [] => .error .assertFail
  | n0 :: restPath =>
    match findState d.state n0.loc with
    | none => .error .unwrapFail
    | some s =>
      match restPath with
      | [] =>
        if tx then .ok (d, [.ackSent, .sent (.full n0 s)])
        else .error .unreachableCode
      | n1 :: _ =>
        let lastA := restPath.getLastD n1
        let d1 : Domain :=
          if !tx then { d with replaying_to := some (lastA.loc, []) } else d
        match replayChunks n0 n1 restPath d.nodes tx (chunks1000 (stateRows s)) d1.state with
        | .error e => .error e
        | .ok (st2, evs) =>
          let d2 : Domain := { d1 with state := st2 }
          if !tx then
            match replay_done d2 lastA.loc with
            | .error e => .error e
            | .ok d3 => .ok (d3, .ackSent :: evs)
          else .ok (d2, .ackSent :: evs)

/-- `BatchedIterator`: adapts a stream of replay batches into messages.  The
channel is modelled by the list of batches it still holds.  The absorbed
`Full` state is modelled by the source address together with the per-key row
groups the persistent `hash_map::IntoIter` has yet to yield (the source
keeps the address in a separate `from` field set exactly when `state_iter`
is set). -/
structure BatchedIterator where
  rx : List ReplayBatch
  state_iter : Option (NodeAddress × List (DataType × List Row))
  to_ : NodeAddress
deriving DecidableEq, Repr

/-- `BatchedIterator::new`. -/
def BatchedIterator.new (rx : List ReplayBatch) (to_ : NodeAddress) : BatchedIterator :=
  ⟨rx, none, to_⟩

/-- One call's chunk collection of `BatchedIterator::next`: the
`flat_map(|(_, rs)| rs).chunks(1000)` temporary is rebuilt on every call
over the persistent hash-map iterator, so a call pulls whole key groups (and
possibly a final partial group) until it has gathered `n` rows, and the
unconsumed tail of a partially consumed group is dropped together with the
temporary at the end of the call.  Returns the gathered chunk and the key
groups the call did not pull from the underlying iterator. -/
def takeGroups : Nat → List (DataType × List Row) → List Row × List (DataType × List Row)
  | _, [] => ([], [])
  | n, (_, rs) :: rest =>
    if rs.length < n then
      let q := takeGroups (n - rs.length) rest
      (rs ++ q.1, q.2)
    else
      (rs.take n, rest)

/-- The body of `BatchedIterator::next` over the iterator's three fields,
structurally recursive on the remaining channel contents. -/
def biNextGo : List ReplayBatch → Option (NodeAddress × List (DataType × List Row)) →
    NodeAddress → Option Message × BatchedIterator
  | rx, some fe, t =>
    let tg := takeGroups 1000 fe.2
    if tg.1.isEmpty then (none, ⟨rx, some fe, t⟩)
    else
      (some ⟨fe.1, t, tg.1.map Record.pos, none, none⟩,
       ⟨rx, some (fe.1, tg.2), t⟩)
  | [], none, t => (none, ⟨[], none, t⟩)
  | .partialMsg m :: rest, none, t => (some m, ⟨rest, none, t⟩)
  | .full f s :: rest, none, t => biNextGo rest (some (f, s.rows)) t

/-- `BatchedIterator::next`: while a `Full` state is absorbed, gather its
next at-most-1000-row chunk as a message, dropping the tail of a partially
consumed key group (see `takeGroups`); once no rows can be gathered, yield
nothing.  Otherwise pull the next batch from the channel, forwarding
`Partial` messages unchanged and absorbing `Full` snapshots. -/
def biNext (bi : BatchedIterator) : Option Message × BatchedIterator :=
  biNextGo bi.rx bi.state_iter bi.to_

/-- Repeatedly call `biNext`, collecting the yielded messages until the
iterator yields `none` (or fuel runs out). -/
def biDrain : Nat → BatchedIterator → List Message × BatchedIterator
  | 0, bi => ([], bi)
  | fuel + 1, bi =>
    match biNext bi with
    | (none, bi1) => ([], bi1)
    | (some m, bi1) =>
      let r := biDrain fuel bi1
      (m :: r.1, r.2)

/-- The timestamps `t + 1, t + 2, …, t + k`. -/
def consecFrom : Int → Nat → List Int
  | _, 0 => []
  | t, k + 1 => (t + 1) :: consecFrom (t + 1) k

/-! Concrete inputs used by the counterexamples and witnesses below. -/

/-- A single non-output internal node at local index 0 whose operator
produces no update. -/
def nC2 : Node := ⟨⟨0, 0⟩, [], .internal, false, fun _ _ st => (st, none)⟩

/-- A transactional message addressed to `nC2`, stamped `(1, base 7)`. -/
def mC2a : Message := ⟨⟨0, 9⟩, ⟨0, 0⟩, [], some (1, 7), none⟩

/-- A second fragment for the same timestamp and base. -/
def mC2b : Message := ⟨⟨0, 9⟩, ⟨0, 0⟩, [Record.pos [4]], some (1, 7), none⟩

/-- A domain holding a buffered transaction with two fragments while
`ingress_from_base` expects only one from base 7. -/
def dC2 : Domain :=
  { nodes := [nC2]
    state := []
    buffered_transactions := [(1, .transaction 7 [mC2a, mC2b])]
    ingress_from_base := [(7, 1)]
    ts := 0
    not_ready := []
    replaying_to := none }

/-- A non-output node at local index 0 with no children. -/
def aC5 : Node := ⟨⟨0, 0⟩, [], .internal, false, fun _ _ st => (st, none)⟩

/-- An output node at local index 5 with no children. -/
def oC5 : Node := ⟨⟨0, 5⟩, [], .egress, true, fun _ _ st => (st, none)⟩

/-- A domain whose only output node is in the not-ready set. -/
def dC5 : Domain :=
  { nodes := [aC5, oC5]
    state := []
    buffered_transactions := []
    ingress_from_base := []
    ts := 0
    not_ready := [5]
    replaying_to := none }

/-- A transactional message addressed to the non-output node of `dC5`. -/
def mC5 : Message := ⟨⟨0, 9⟩, ⟨0, 0⟩, [], some (1, 7), none⟩

/-- Projection of a `transactional_dispatch` result onto the fed messages. -/
def tdFeeds (r : Except DErr (Domain × List Message)) : Option (List Message) :=
  match r with
  | .ok p => some p.2
  | .error _ => none

/-- An output node at local index 1 that is ready (witness input). -/
def oW5 : Node := ⟨⟨0, 1⟩, [], .egress, true, fun _ _ st => (st, none)⟩

/-- A domain with one ready output node. -/
def dW5 : Domain :=
  { nodes := [oW5]
    state := []
    buffered_transactions := []
    ingress_from_base := []
    ts := 0
    not_ready := []
    replaying_to := none }

/-- A transactional message addressed to the output node of `dW5`. -/
def mW5 : Message := ⟨⟨0, 9⟩, ⟨0, 1⟩, [], some (5, 0), none⟩

/-- The message `transactional_dispatch` synthesizes for `oW5`. -/
def feedW5 : Message := ⟨⟨0, 1⟩, ⟨0, 1⟩, [], some (5, 0), none⟩

/-- A materialized state for the replay witness. -/
def sW7 : State := ⟨some 0, [(3, [[3, 30]]), (4, [[4, 40]])]⟩

/-- A domain materializing `sW7` at local index 0. -/
def dW7 : Domain :=
  { nodes := []
    state := [(0, sW7)]
    buffered_transactions := []
    ingress_from_base := []
    ts := 0
    not_ready := []
    replaying_to := none }

/-- A domain whose replay cursor targets node 5 (counterexample input). -/
def dC8 : Domain :=
  { nodes := []
    state := []
    buffered_transactions := []
    ingress_from_base := []
    ts := 0
    not_ready := [3]
    replaying_to := some (5, []) }

/-- Witness domain with no replay cursor. -/
def d1W8 : Domain :=
  { nodes := []
    state := []
    buffered_transactions := []
    ingress_from_base := []
    ts := 0
    not_ready := [1, 2]
    replaying_to := none }

/-- Witness domain whose cursor targets node 2 with an empty buffer. -/
def d2W8 : Domain :=
  { d1W8 with replaying_to := some (2, []) }

/-- Witness domain whose cursor target differs from the completing node. -/
def d3W8 : Domain :=
  { d1W8 with replaying_to := some (7, []) }

/-- An idle domain at timestamp 0 with an empty buffer (counterexample input). -/
def dC9 : Domain :=
  { nodes := []
    state := []
    buffered_transactions := []
    ingress_from_base := []
    ts := 0
    not_ready := []
    replaying_to := none }

/-- Witness domain for the migration-barrier theorem, at timestamp 0. -/
def dW9 : Domain :=
  { nodes := []
    state := []
    buffered_transactions := []
    ingress_from_base := []
    ts := 0
    not_ready := []
    replaying_to := none }

/-- Witness domain whose buffer already holds timestamp 2. -/
def dW9b : Domain :=
  { dW9 with buffered_transactions := [(2, .remote)] }

/-- A timestamp-egress node (witness input for construction readiness). -/
def nTE : Node := ⟨⟨0, 0⟩, [], .timestampEgress, false, fun _ _ st => (st, none)⟩

/-- An internal node (witness input for construction readiness). -/
def nIN : Node := ⟨⟨0, 1⟩, [], .internal, false, fun _ _ st => (st, none)⟩

/-- A pending partial batch behind a full snapshot (counterexample input). -/
def mC4 : Message := ⟨⟨0, 2⟩, ⟨0, 3⟩, [Record.pos [9]], none, none⟩

/-- An empty snapshot state. -/
def stC4e : State := ⟨some 0, []⟩

/-- A batched iterator whose channel holds an empty full snapshot followed
by a partial batch. -/
def biC4 : BatchedIterator := ⟨[.full ⟨0, 8⟩ stC4e, .partialMsg mC4], none, ⟨0, 4⟩⟩

/-- The iterator state after `biC4` absorbs the empty snapshot. -/
def biC4x : BatchedIterator := ⟨[.partialMsg mC4], some (⟨0, 8⟩, []), ⟨0, 4⟩⟩

/-- A snapshot whose single key group holds 1001 rows, so a 1000-row chunk
boundary falls inside the group (counterexample input for row loss). -/
def stBig : State := ⟨some 0, [(1, List.replicate 1001 [7])]⟩

/-- A two-row snapshot state (witness input for the batched iterator). -/
def sW4 : State := ⟨some 0, [(1, [[1], [2]])]⟩

/-! Theorems. -/

/-- A list that contains an element is not empty. -/
theorem isEmpty_false_of_contains {l : List Nat} {a : Nat}
    (h : l.contains a = true) : l.isEmpty = false := by
  cases l with
  | nil => simp at h
  | cons x xs => rfl

/-- C3: a dispatch invocation whose destination is in the not-ready set (and
is not the replay-cursor target) returns the empty output map, leaves the
cursor and the states untouched, and invokes no node's `process`. -/
theorem dispatch_drops_not_ready_destination (fuel : Nat) (m : Message)
    (nr : List Nat) (cur : Option (Nat × List Message)) (st : StateMap)
    (nodes : List Node) (en : Bool)
    (hnr : nr.contains m.to_.loc = true)
    (hcur : cursorTarget cur ≠ some m.to_.loc) :
    dispatch (fuel + 1) m nr cur st nodes en = .ok ⟨[], cur, st, []⟩ := by
  have hne := isEmpty_false_of_contains hnr
  have hcond : (!nr.isEmpty && nr.contains m.to_.loc) = true := by
    rw [hne, hnr]; rfl
  cases cur with
  | none =>
    simp only [dispatch, dispatchCore, hcond]
    simp
  | some p =>
    obtain ⟨b, buf⟩ := p
    have hb : ¬ b = m.to_.loc := by
      intro h
      exact hcur (by simp [cursorTarget, h])
    simp only [dispatch, dispatchCore, hcond]
    simp [hb]

/-- C3 witness at a concrete not-ready destination. -/
theorem dispatch_drops_not_ready_destination_witness :
    ([4, 0].contains (⟨⟨0, 9⟩, ⟨0, 0⟩, [], none, none⟩ : Message).to_.loc = true) ∧
    cursorTarget (some (3, [])) ≠ some (⟨⟨0, 9⟩, ⟨0, 0⟩, [], none, none⟩ : Message).to_.loc ∧
    dispatch 3 ⟨⟨0, 9⟩, ⟨0, 0⟩, [], none, none⟩ [4, 0] (some (3, [])) [] [nC2] true =
      .ok ⟨[], some (3, []), [], []⟩ :=
  ⟨by decide, by decide,
   dispatch_drops_not_ready_destination 2 ⟨⟨0, 9⟩, ⟨0, 0⟩, [], none, none⟩ [4, 0]
     (some (3, [])) [] [nC2] true (by decide) (by decide)⟩

/-- C6: while the replay cursor targets the destination of a streaming
dispatch, the message is appended to the cursor's buffer and the empty map
is returned, with no `process` invocation and no change to the states. -/
theorem dispatch_buffers_replay_target (fuel : Nat) (m : Message)
    (nr : List Nat) (buf : List Message) (st : StateMap) (nodes : List Node)
    (en : Bool) :
    dispatch (fuel + 1) m nr (some (m.to_.loc, buf)) st nodes en =
      .ok ⟨[], some (m.to_.loc, buf ++ [m]), st, []⟩ := by
  simp [dispatch]

/-- C7: a single-node `Replay` requires a sender (`unreachable!` otherwise)
and sends exactly one `Full` batch holding the source node's state value
(hence equal rows and primary key), leaving the domain untouched. -/
theorem replay_single_node_sends_full_state (d : Domain) (n0 : NodeAddress)
    (s : State) (hs : findState d.state n0.loc = some s) :
    handleReplay d [n0] true = .ok (d, [.ackSent, .sent (.full n0 s)]) ∧
    handleReplay d [n0] false = .error .unreachableCode := by
  simp [handleReplay, hs]

/-- C7 witness on a concrete materialized state. -/
theorem replay_single_node_sends_full_state_witness :
    findState dW7.state (⟨0, 0⟩ : NodeAddress).loc = some sW7 ∧
    (handleReplay dW7 [⟨0, 0⟩] true = .ok (dW7, [.ackSent, .sent (.full ⟨0, 0⟩ sW7)]) ∧
     handleReplay dW7 [⟨0, 0⟩] false = .error .unreachableCode) :=
  ⟨by decide, replay_single_node_sends_full_state dW7 ⟨0, 0⟩ sW7 (by decide)⟩

/-- C8 counterexample: with the cursor targeting node 5, `replay_done 3`
panics on the `assert_eq!` instead of leaving the cursor in place. -/
theorem replay_done_mismatched_cursor_cex :
    dC8.replaying_to = some (5, []) ∧ (3 : Nat) ≠ 5 ∧
    rdPanicked (replay_done dC8 3) = true := by
  refine ⟨rfl, by decide, ?_⟩
  decide

/-- C8 (amended): `replay_done` always removes the node from the not-ready
set; with no cursor it succeeds leaving the cursor absent; with a cursor it
succeeds only when the target is the completing node and the buffer is
empty, in which case the cursor is cleared; any other cursor is a fatal
assertion failure rather than being left in place. -/
theorem replay_done_behavior (d1 : Domain) (node1 : Nat) (d2 : Domain)
    (node2 : Nat) (d3 : Domain) (node3 t3 : Nat) (buf3 : List Message)
    (h1 : d1.replaying_to = none)
    (h2 : d2.replaying_to = some (node2, []))
    (h3 : d3.replaying_to = some (t3, buf3))
    (h3b : ¬(t3 = node3 ∧ buf3 = [])) :
    replay_done d1 node1 = .ok { d1 with not_ready := d1.not_ready.erase node1 } ∧
    replay_done d2 node2 =
      .ok { d2 with not_ready := d2.not_ready.erase node2, replaying_to := none } ∧
    rdPanicked (replay_done d3 node3) = true := by
  refine ⟨?_, ?_, ?_⟩
  · simp [replay_done, h1]
  · simp [replay_done, h2]
  · by_cases ht : t3 = node3
    · have hbuf : buf3 ≠ [] := fun hb => h3b ⟨ht, hb⟩
      have : buf3.isEmpty = false := by
        cases buf3 with
        | nil => exact absurd rfl hbuf
        | cons x xs => rfl
      simp [replay_done, h3, ht, this, rdPanicked]
    · simp [replay_done, h3, ht, rdPanicked]

/-- C8 witness on three concrete domains. -/
theorem replay_done_behavior_witness :
    d1W8.replaying_to = none ∧
    d2W8.replaying_to = some (2, []) ∧
    d3W8.replaying_to = some (7, []) ∧
    ¬((7 : Nat) = 3 ∧ ([] : List Message) = []) ∧
    (replay_done d1W8 1 = .ok { d1W8 with not_ready := d1W8.not_ready.erase 1 } ∧
     replay_done d2W8 2 =
       .ok { d2W8 with not_ready := d2W8.not_ready.erase 2, replaying_to := none } ∧
     rdPanicked (replay_done d3W8 3) = true) :=
  ⟨rfl, rfl, rfl, by decide,
   replay_done_behavior d1W8 1 d2W8 2 d3W8 3 7 [] rfl rfl rfl (by decide)⟩

/-- C9 counterexample: a `CompleteMigration` whose timestamp is not
`self.ts + 1` is a fatal assertion failure, not a barrier waiting in the
buffer. -/
theorem complete_migration_future_ts_cex :
    dC9.ts = 0 ∧ (handleCompleteMigration 1 dC9 2 []).panicked = true := by
  exact ⟨rfl, by decide⟩

/-- C9 (amended): both migration commands enqueue their barrier under `ts`
and it is fatal to enqueue a timestamp that already exists; `StartMigration`
applies transactions immediately when `ts = self.ts + 1` and otherwise
leaves the barrier waiting, while `CompleteMigration` requires
`ts = self.ts + 1` (fatal assertion otherwise) and then applies
transactions immediately. -/
theorem migration_barrier_behavior (dfuel : Nat) (d : Domain) (ts : Int)
    (counts0 : List (Nat × Nat)) (d2 : Domain) (ts2 : Int) (e2 : BufferedTransaction)
    (counts2 : List (Nat × Nat)) (d3 : Domain) (ts3 : Int) (counts3 : List (Nat × Nat))
    (hfresh : lookupBT d.buffered_transactions ts = none)
    (hne : ts ≠ d.ts + 1)
    (hdup : lookupBT d2.buffered_transactions ts2 = some e2)
    (hfresh3 : lookupBT d3.buffered_transactions ts3 = none)
    (heq3 : ts3 = d3.ts + 1) :
    handleStartMigration dfuel d ts =
      ⟨{ d with buffered_transactions := insertBT d.buffered_transactions ts .migrationStart },
       [], false⟩ ∧
    lookupBT (insertBT d.buffered_transactions ts .migrationStart) ts = some .migrationStart ∧
    handleCompleteMigration dfuel d ts counts0 =
      ⟨{ d with buffered_transactions :=
           insertBT d.buffered_transactions ts (.migrationEnd counts0) }, [], true⟩ ∧
    handleStartMigration dfuel d2 ts2 = ⟨d2, [], true⟩ ∧
    handleCompleteMigration dfuel d2 ts2 counts2 = ⟨d2, [], true⟩ ∧
    handleStartMigration dfuel d3 ts3 =
      apply_transactions dfuel
        { d3 with buffered_transactions := insertBT d3.buffered_transactions ts3 .migrationStart } ∧
    handleCompleteMigration dfuel d3 ts3 counts3 =
      apply_transactions dfuel
        { d3 with buffered_transactions :=
            insertBT d3.buffered_transactions ts3 (.migrationEnd counts3) } := by
  subst heq3
  refine ⟨?_, ?_, ?_, ?_, ?_, ?_, ?_⟩
  · simp [handleStartMigration, hfresh, hne]
  · simp [lookupBT, insertBT]
  · simp [handleCompleteMigration, hfresh, hne]
  · simp [handleStartMigration, hdup]
  · simp [handleCompleteMigration, hdup]
  · simp [handleStartMigration, hfresh3]
  · simp [handleCompleteMigration, hfresh3]

/-- C9 witness on concrete domains and timestamps. -/
theorem migration_barrier_behavior_witness :
    lookupBT dW9.buffered_transactions 3 = none ∧
    (3 : Int) ≠ dW9.ts + 1 ∧
    lookupBT dW9b.buffered_transactions 2 = some .remote ∧
    lookupBT dW9.buffered_transactions 1 = none ∧
    (1 : Int) = dW9.ts + 1 ∧
    (handleStartMigration 1 dW9 3 =
       ⟨{ dW9 with buffered_transactions := insertBT dW9.buffered_transactions 3 .migrationStart },
        [], false⟩ ∧
     lookupBT (insertBT dW9.buffered_transactions 3 .migrationStart) 3 = some .migrationStart ∧
     handleCompleteMigration 1 dW9 3 [] =
       ⟨{ dW9 with buffered_transactions :=
            insertBT dW9.buffered_transactions 3 (.migrationEnd []) }, [], true⟩ ∧
     handleStartMigration 1 dW9b 2 = ⟨dW9b, [], true⟩ ∧
     handleCompleteMigration 1 dW9b 2 [] = ⟨dW9b, [], true⟩ ∧
     handleStartMigration 1 dW9 1 =
       apply_transactions 1
         { dW9 with buffered_transactions := insertBT dW9.buffered_transactions 1 .migrationStart } ∧
     handleCompleteMigration 1 dW9 1 [] =
       apply_transactions 1
         { dW9 with buffered_transactions :=
             insertBT dW9.buffered_transactions 1 (.migrationEnd []) }) :=
  ⟨by decide, by decide, by decide, by decide, by decide,
   migration_barrier_behavior 1 dW9 3 [] dW9b 2 .remote [] dW9 1 []
     (by decide) (by decide) (by decide) (by decide) (by decide)⟩

/-- Distinct mapped local indices make nodes with equal indices equal. -/
theorem eq_of_mem_nodup_loc : ∀ (l : List Node),
    (l.map (fun n => n.addr.loc)).Nodup →
    ∀ a, a ∈ l → ∀ b, b ∈ l → a.addr.loc = b.addr.loc → a = b := by
  intro l
  induction l with
  | nil => intro _ a ha; simp at ha
  | cons n rest ih =>
    intro hnd a ha b hb hab
    simp only [List.map_cons, List.nodup_cons] at hnd
    rcases List.mem_cons.mp ha with rfl | ha' <;>
      rcases List.mem_cons.mp hb with rfl | hb'
    · rfl
    · exact absurd (hab ▸ List.mem_map_of_mem (fun n => n.addr.loc) hb') hnd.1
    · exact absurd (hab ▸ List.mem_map_of_mem (fun n => n.addr.loc) ha') hnd.1
    · exact ih hnd.2 a ha' b hb' hab

/-- The readiness filter of `Domain::new` as an if-then-else. -/
theorem new_filter_eq (n : Node) :
    (match n.inner with
     | NodeType.timestampEgress => none
     | _ => some n.addr.loc) =
      if n.inner = NodeType.timestampEgress then none else some n.addr.loc := by
  cases h : n.inner <;> simp [h]

/-- C10: after `Domain::new`, a supplied node is in the not-ready set
exactly when its operator variant is not `TimestampEgress` (timestamp
egress nodes are ready from the start). -/
theorem domain_new_not_ready_except_timestamp_egress (nodes : List Node)
    (ts : Int) (n : Node)
    (hnodup : (nodes.map (fun x => x.addr.loc)).Nodup) (hmem : n ∈ nodes) :
    n.addr.loc ∈ (Domain.new nodes ts).not_ready ↔
      n.inner ≠ NodeType.timestampEgress := by
  simp only [Domain.new, List.mem_filterMap]
  constructor
  · rintro ⟨a, ha, hfa⟩
    rw [new_filter_eq] at hfa
    by_cases hte : a.inner = NodeType.timestampEgress
    · simp [hte] at hfa
    · simp [hte] at hfa
      have : a = n := eq_of_mem_nodup_loc nodes hnodup a ha n hmem hfa
      rw [← this]
      exact hte
  · intro hne
    refine ⟨n, hmem, ?_⟩
    rw [new_filter_eq]
    simp [hne]

/-- C10 witness: a concrete two-node domain construction. -/
theorem domain_new_not_ready_except_timestamp_egress_witness :
    (([nTE, nIN].map (fun x => x.addr.loc)).Nodup) ∧ nIN ∈ [nTE, nIN] ∧
    (nIN.addr.loc ∈ (Domain.new [nTE, nIN] 0).not_ready ↔
      nIN.inner ≠ NodeType.timestampEgress) :=
  ⟨by decide, List.mem_cons_of_mem nTE (List.mem_cons_self nIN []),
   domain_new_not_ready_except_timestamp_egress [nTE, nIN] 0 nIN (by decide)
     (List.mem_cons_of_mem nTE (List.mem_cons_self nIN []))⟩

/-- Every consumed timestamp in a consecutive run lies above the start. -/
theorem consecFrom_mem_gt : ∀ (k : Nat) (t : Int) (b : Int),
    b ∈ consecFrom t k → t < b := by
  intro k
  induction k with
  | zero => intro t b hb; simp [consecFrom] at hb
  | succ k ih =>
    intro t b hb
    rcases List.mem_cons.mp hb with rfl | hb'
    · omega
    · have := ih (t + 1) b hb'
      omega

/-- Consecutive timestamp runs are strictly increasing. -/
theorem consecFrom_pairwise : ∀ (k : Nat) (t : Int),
    List.Pairwise (fun a b => a < b) (consecFrom t k) := by
  intro k
  induction k with
  | zero => intro t; simp [consecFrom]
  | succ k ih =>
    intro t
    refine List.pairwise_cons.mpr ⟨?_, ih (t + 1)⟩
    intro b hb
    exact consecFrom_mem_gt k (t + 1) b hb

/-- The cons step of the consecutive-consumption argument: if the recursion
starts at timestamp `t + 1` and satisfies the invariant, so does the run
extended by the entry consumed at `t + 1`. -/
theorem consume_step (dfuel fuel : Nat) (D : Domain) (t : Int) (hD : D.ts = t + 1)
    (hmap : List.map Consumed.ts (applyTransactionsGo dfuel fuel D).trace =
      consecFrom D.ts (applyTransactionsGo dfuel fuel D).trace.length)
    (hts : (applyTransactionsGo dfuel fuel D).dom.ts =
      D.ts + (applyTransactionsGo dfuel fuel D).trace.length) :
    (t + 1) :: List.map Consumed.ts (applyTransactionsGo dfuel fuel D).trace =
      consecFrom t ((applyTransactionsGo dfuel fuel D).trace.length + 1) ∧
    (applyTransactionsGo dfuel fuel D).dom.ts =
      t + (((applyTransactionsGo dfuel fuel D).trace.length + 1 : Nat) : Int) := by
  rw [hD] at hmap hts
  constructor
  · simp only [consecFrom]
    rw [hmap]
  · rw [hts]
    push_cast
    ring

/-- Each run of the `apply_transactions` loop consumes the buffer entries at
`self.ts + 1, self.ts + 2, …` in order and advances `self.ts` by one per
consumed entry, for every fuel bound and domain state. -/
theorem applyGo_trace_ts (dfuel : Nat) : ∀ (fuel : Nat) (d : Domain),
    (applyTransactionsGo dfuel fuel d).trace.map Consumed.ts =
      consecFrom d.ts (applyTransactionsGo dfuel fuel d).trace.length ∧
    (applyTransactionsGo dfuel fuel d).dom.ts =
      d.ts + (applyTransactionsGo dfuel fuel d).trace.length := by
  intro fuel
  induction fuel with
  | zero => intro d; simp [applyTransactionsGo, consecFrom]
  | succ fuel ih =>
    intro d
    simp only [applyTransactionsGo]
    split
    · simp [consecFrom]
    · split
      · simp [consecFrom]
      · split
        · split
          · simp [consecFrom]
          · split
            · simp [consecFrom]
            · split
              · simp [consecFrom]
              · simp only [List.map_cons, List.length_cons]
                exact consume_step dfuel fuel _ d.ts rfl (ih _).1 (ih _).2
        · simp only [List.map_cons, List.length_cons]
          exact consume_step dfuel fuel _ d.ts rfl (ih _).1 (ih _).2
        · simp only [List.map_cons, List.length_cons]
          exact consume_step dfuel fuel _ d.ts rfl (ih _).1 (ih _).2
        · simp only [List.map_cons, List.length_cons]
          exact consume_step dfuel fuel _ d.ts rfl (ih _).1 (ih _).2

/-- C1: in every run of `apply_transactions`, the consumed buffer entries
have the consecutive timestamps `self.ts + 1, self.ts + 2, …` (hence are
consumed in strictly increasing order, and an entry is consumed only after
all smaller consumed timestamps), and `self.ts` ends at its start value plus
the number of consumed entries, so it is non-decreasing and increases by
exactly one per entry consumed. -/
theorem apply_transactions_consecutive_timestamps (dfuel : Nat) (d : Domain) :
    (apply_transactions dfuel d).trace.map Consumed.ts =
      consecFrom d.ts (apply_transactions dfuel d).trace.length ∧
    List.Pairwise (fun a b => a < b)
      ((apply_transactions dfuel d).trace.map Consumed.ts) ∧
    (apply_transactions dfuel d).dom.ts =
      d.ts + (apply_transactions dfuel d).trace.length ∧
    d.ts ≤ (apply_transactions dfuel d).dom.ts := by
  unfold apply_transactions
  obtain ⟨h1, h2⟩ := applyGo_trace_ts dfuel d.buffered_transactions.length d
  refine ⟨h1, ?_, h2, ?_⟩
  · rw [h1]
    exact consecFrom_pairwise _ _
  · rw [h2]
    omega

/-- Every `Transaction` entry the loop releases has gathered at least the
ingress count its base had at the moment of release. -/
theorem applyGo_release_ge (dfuel : Nat) : ∀ (fuel : Nat) (d : Domain) (c : Consumed),
    c ∈ (applyTransactionsGo dfuel fuel d).trace →
    ∀ (b : Nat) (msgs : List Message), c.entry = .transaction b msgs →
    (lookupNat c.ing b).isSome = true ∧ (lookupNat c.ing b).getD 0 ≤ msgs.length := by
  intro fuel
  induction fuel with
  | zero => intro d c hc; simp [applyTransactionsGo] at hc
  | succ fuel ih =>
    intro d c hc b msgs he
    simp only [applyTransactionsGo] at hc
    revert hc
    split
    · intro hc; simp at hc
    · split
      · intro hc; simp at hc
      · split
        · rename_i base0 msgs0 hbt
          split
          · intro hc; simp at hc
          · rename_i c0 hc0
            split
            · intro hc; simp at hc
            · rename_i hlt
              split
              · intro hc; simp at hc
              · intro hc
                rcases List.mem_cons.mp hc with rfl | hc2
                · simp only [BufferedTransaction.transaction.injEq] at he
                  obtain ⟨rfl, rfl⟩ := he
                  refine ⟨?_, ?_⟩
                  · show (lookupNat d.ingress_from_base base0).isSome = true
                    rw [hc0]
                    rfl
                  · show (lookupNat d.ingress_from_base base0).getD 0 ≤ msgs0.length
                    rw [hc0]
                    simp only [Option.getD_some]
                    omega
                · exact ih _ c hc2 b msgs he
        · intro hc
          rcases List.mem_cons.mp hc with rfl | hc2
          · simp at he
          · exact ih _ c hc2 b msgs he
        · intro hc
          rcases List.mem_cons.mp hc with rfl | hc2
          · simp at he
          · exact ih _ c hc2 b msgs he
        · intro hc
          rcases List.mem_cons.mp hc with rfl | hc2
          · simp at he
          · exact ih _ c hc2 b msgs he

/-- C2 counterexample: a buffered transaction with two fragments whose base
expects only one is released and handed to `transactional_dispatch` with a
message count different from `ingress_from_base[base]`. -/
theorem release_count_not_equal_cex :
    (apply_transactions 2 dC2).trace = [⟨1, .transaction 7 [mC2a, mC2b], [(7, 1)]⟩] ∧
    lookupNat [(7, 1)] 7 = some 1 ∧
    ([mC2a, mC2b] : List Message).length ≠ 1 := by
  refine ⟨by decide, by decide, by decide⟩

/-- C2 (amended): every `Transaction(base, messages)` entry that
`apply_transactions` removes and hands to `transactional_dispatch` has
`base` present in `ingress_from_base` and `messages.len()` at least (not
necessarily equal to) `ingress_from_base[base]` at the moment of release; in
particular an entry whose message count is below that count is never
released. -/
theorem apply_transactions_release_at_least_ingress (dfuel : Nat) (d : Domain)
    (c : Consumed) (b : Nat) (msgs : List Message)
    (hmem : c ∈ (apply_transactions dfuel d).trace)
    (he : c.entry = .transaction b msgs) :
    (lookupNat c.ing b).isSome = true ∧ (lookupNat c.ing b).getD 0 ≤ msgs.length :=
  applyGo_release_ge dfuel d.buffered_transactions.length d c hmem b msgs he

/-- C2 witness at the concrete released transaction of `dC2`. -/
theorem apply_transactions_release_at_least_ingress_witness :
    (⟨1, .transaction 7 [mC2a, mC2b], [(7, 1)]⟩ : Consumed) ∈
      (apply_transactions 2 dC2).trace ∧
    (⟨1, .transaction 7 [mC2a, mC2b], [(7, 1)]⟩ : Consumed).entry =
      .transaction 7 [mC2a, mC2b] ∧
    ((lookupNat [(7, 1)] 7).isSome = true ∧
     (lookupNat [(7, 1)] 7).getD 0 ≤ ([mC2a, mC2b] : List Message).length) :=
  ⟨by decide, rfl,
   apply_transactions_release_at_least_ingress 2 dC2
     ⟨1, .transaction 7 [mC2a, mC2b], [(7, 1)]⟩ 7 [mC2a, mC2b] (by decide) rfl⟩

/-- Decomposition of one `takeGroups` call: the flattening of the remaining
groups equals the gathered chunk, then the rows lost with the partially
consumed group, then the flattening of the untouched groups. -/
theorem takeGroups_decomp : ∀ (entries : List (DataType × List Row)) (n : Nat),
    ∃ lost : List Row, flattenGroups entries =
      (takeGroups n entries).1 ++ lost ++ flattenGroups (takeGroups n entries).2 := by
  intro entries
  induction entries with
  | nil => intro n; exact ⟨[], by simp [takeGroups, flattenGroups]⟩
  | cons g rest ih =>
    intro n
    obtain ⟨k, rs⟩ := g
    by_cases h : rs.length < n
    · obtain ⟨lost, hl⟩ := ih (n - rs.length)
      refine ⟨lost, ?_⟩
      simp only [takeGroups, if_pos h, flattenGroups, List.map_cons, List.flatten_cons]
      simp only [flattenGroups] at hl
      rw [hl]
      simp [List.append_assoc]
    · refine ⟨rs.drop n, ?_⟩
      simp only [takeGroups, if_neg h, flattenGroups, List.map_cons, List.flatten_cons]
      conv_lhs => rw [← List.take_append_drop n rs]

/-- A `takeGroups` chunk holds at most the requested number of rows. -/
theorem takeGroups_length_le : ∀ (entries : List (DataType × List Row)) (n : Nat),
    (takeGroups n entries).1.length ≤ n := by
  intro entries
  induction entries with
  | nil => intro n; simp [takeGroups]
  | cons g rest ih =>
    intro n
    obtain ⟨k, rs⟩ := g
    by_cases h : rs.length < n
    · have := ih (n - rs.length)
      simp only [takeGroups, if_pos h, List.length_append]
      omega
    · simp only [takeGroups, if_neg h, List.length_take]
      omega

/-- If no rows remain, a `takeGroups` call gathers nothing. -/
theorem takeGroups_chunk_nil (n : Nat) (entries : List (DataType × List Row))
    (h : flattenGroups entries = []) : (takeGroups n entries).1 = [] := by
  obtain ⟨lost, hd⟩ := takeGroups_decomp entries n
  rw [h] at hd
  exact (List.append_eq_nil.mp (List.append_eq_nil.mp hd.symm).1).1

/-- When at most `n` rows remain in total, one `takeGroups` call gathers all
of them and loses nothing. -/
theorem takeGroups_small : ∀ (entries : List (DataType × List Row)) (n : Nat),
    (flattenGroups entries).length ≤ n →
    (takeGroups n entries).1 = flattenGroups entries ∧
    flattenGroups (takeGroups n entries).2 = [] := by
  intro entries
  induction entries with
  | nil => intro n h; simp [takeGroups, flattenGroups]
  | cons g rest ih =>
    intro n h
    obtain ⟨k, rs⟩ := g
    have hflat : flattenGroups ((k, rs) :: rest) = rs ++ flattenGroups rest := by
      simp [flattenGroups]
    rw [hflat] at h ⊢
    simp only [List.length_append] at h
    by_cases hlt : rs.length < n
    · obtain ⟨ih1, ih2⟩ := ih (n - rs.length) (by omega)
      simp only [takeGroups, if_pos hlt]
      exact ⟨by rw [ih1], ih2⟩
    · have hrs : rs.length = n := by omega
      have hrest0 : (flattenGroups rest).length = 0 := by omega
      have hrest : flattenGroups rest = [] := List.length_eq_zero.mp hrest0
      simp only [takeGroups, if_neg hlt]
      constructor
      · rw [hrest, List.append_nil]
        exact List.take_of_length_le (by omega)
      · exact hrest

/-- Once no rows remain in the absorbed snapshot, draining yields no
further messages, whatever the fuel. -/
theorem biDrain_exhausted (src n0 : NodeAddress) (rx : List ReplayBatch)
    (entries : List (DataType × List Row)) (h : flattenGroups entries = []) :
    ∀ (f : Nat), (biDrain f ⟨rx, some (src, entries), n0⟩).1 = [] := by
  intro f
  cases f with
  | zero => rfl
  | succ f =>
    have hc : (takeGroups 1000 entries).1 = [] := takeGroups_chunk_nil 1000 entries h
    simp [biDrain, biNext, biNextGo, hc]

/-- Draining an absorbed snapshot yields only nonempty at-most-1000-row
chunks of positive records addressed `from = src, to = n0`, and the rows
yielded form (in order) a sublist of the snapshot's remaining rows — rows of
a key group beyond a chunk boundary are dropped, so the sublist can be
proper. -/
theorem biDrain_state (src n0 : NodeAddress) : ∀ (fuel : Nat)
    (entries : List (DataType × List Row)) (rx : List ReplayBatch),
    (flattenGroups entries).length < fuel →
    ((biDrain fuel ⟨rx, some (src, entries), n0⟩).1.map Message.data).flatten.Sublist
      ((flattenGroups entries).map Record.pos) ∧
    (biDrain fuel ⟨rx, some (src, entries), n0⟩).1.all
      (fun mm => decide (mm.from_ = src) && decide (mm.to_ = n0) && decide (mm.ts = none) &&
        (!mm.data.isEmpty) && decide (mm.data.length ≤ 1000)) = true := by
  intro fuel
  induction fuel with
  | zero => intro entries rx h; omega
  | succ fuel ih =>
    intro entries rx h
    obtain ⟨lost, hdec⟩ := takeGroups_decomp entries 1000
    cases htg : (takeGroups 1000 entries).1 with
    | nil =>
      have hstep : biDrain (fuel + 1) ⟨rx, some (src, entries), n0⟩ =
          ([], ⟨rx, some (src, entries), n0⟩) := by
        simp [biDrain, biNext, biNextGo, htg]
      rw [hstep]
      exact ⟨List.nil_sublist _, rfl⟩
    | cons c0 crest =>
      have hne : (takeGroups 1000 entries).1 ≠ [] := by rw [htg]; simp
      have hemp : (takeGroups 1000 entries).1.isEmpty = false := by
        rw [htg]; rfl
      have hstep : biDrain (fuel + 1) ⟨rx, some (src, entries), n0⟩ =
          (⟨src, n0, (takeGroups 1000 entries).1.map Record.pos, none, none⟩ ::
             (biDrain fuel ⟨rx, some (src, (takeGroups 1000 entries).2), n0⟩).1,
           (biDrain fuel ⟨rx, some (src, (takeGroups 1000 entries).2), n0⟩).2) := by
        simp [biDrain, biNext, biNextGo, hemp]
      have hlen2 : (flattenGroups (takeGroups 1000 entries).2).length < fuel := by
        have h1 : 0 < (takeGroups 1000 entries).1.length := by rw [htg]; simp
        have h2 := congrArg List.length hdec
        simp only [List.length_append] at h2
        omega
      obtain ⟨ihs, iha⟩ := ih (takeGroups 1000 entries).2 rx hlen2
      rw [hstep]
      constructor
      · simp only [List.map_cons, List.flatten_cons]
        rw [hdec]
        simp only [List.map_append]
        rw [List.append_assoc]
        refine List.Sublist.append_left ?_ _
        exact ihs.trans (List.sublist_append_right _ _)
      · simp only [List.all_cons, iha, Bool.and_true]
        have hle := takeGroups_length_le entries 1000
        rw [htg] at hle
        simp only [List.length_cons] at hle
        simp [htg]
        omega

/-- Draining an absorbed snapshot with at most 1000 rows in total yields
every row: a single chunk boundary cannot fall inside a key group. -/
theorem biDrain_small (src n0 : NodeAddress) (fuel : Nat)
    (entries : List (DataType × List Row)) (rx : List ReplayBatch)
    (hf : 0 < fuel) (hsmall : (flattenGroups entries).length ≤ 1000) :
    ((biDrain fuel ⟨rx, some (src, entries), n0⟩).1.map Message.data).flatten =
      (flattenGroups entries).map Record.pos := by
  obtain ⟨f, rfl⟩ : ∃ f, fuel = f + 1 := ⟨fuel - 1, by omega⟩
  obtain ⟨hall, hrest⟩ := takeGroups_small entries 1000 hsmall
  cases htg : (takeGroups 1000 entries).1 with
  | nil =>
    have hflat : flattenGroups entries = [] := by rw [← hall, htg]
    have hstep : biDrain (f + 1) ⟨rx, some (src, entries), n0⟩ =
        ([], ⟨rx, some (src, entries), n0⟩) := by
      simp [biDrain, biNext, biNextGo, htg]
    rw [hstep, hflat]
    rfl
  | cons c0 crest =>
    have hemp : (takeGroups 1000 entries).1.isEmpty = false := by
      rw [htg]; rfl
    have hstep : biDrain (f + 1) ⟨rx, some (src, entries), n0⟩ =
        (⟨src, n0, (takeGroups 1000 entries).1.map Record.pos, none, none⟩ ::
           (biDrain f ⟨rx, some (src, (takeGroups 1000 entries).2), n0⟩).1,
         (biDrain f ⟨rx, some (src, (takeGroups 1000 entries).2), n0⟩).2) := by
      simp [biDrain, biNext, biNextGo, hemp]
    rw [hstep]
    simp only [List.map_cons, List.flatten_cons]
    rw [biDrain_exhausted src n0 rx (takeGroups 1000 entries).2 hrest f]
    simp [hall]

set_option maxRecDepth 100000 in
/-- C4 counterexample: after absorbing a `Full` batch whose state is
exhausted, `next` returns `None` even though the channel still holds a
`Partial` batch — the iterator terminates instead of pulling the next
batch.  Moreover a snapshot whose single key group holds 1001 rows yields
only one 1000-row chunk: the group's tail beyond the chunk boundary is
dropped, so the yielded chunks do not contain every row of the state. -/
theorem batched_iterator_stops_after_full_cex :
    (biNext biC4 = (none, biC4x) ∧ biC4x.rx = [.partialMsg mC4]) ∧
    ((biDrain 3 ⟨[.full ⟨0, 8⟩ stBig], none, ⟨0, 4⟩⟩).1.map
        (fun mm => mm.data.length)) = [1000] ∧
    (stateRows stBig).length = 1001 := by
  exact ⟨⟨by decide, by decide⟩, by decide, by decide⟩

/-- C4 (amended): a `Partial(m)` batch (pulled while no snapshot is
absorbed) is forwarded as `m` unchanged; a `Full(src, state)` batch is
absorbed and then yields messages `from = src, to = n0` whose data fields
are successive nonempty at-most-1000-row chunks of positive records drawn
in order from the state's rows; because each `next()` call rebuilds the
chunking temporary and drops the unconsumed tail of a partially consumed
key group, the yielded rows form a sublist (possibly proper) of the state's
rows, and contain every row when the state holds at most 1000 rows; once
the absorbed state is exhausted the iterator yields `None` and terminates
without pulling further batches from the channel. -/
theorem batched_iterator_behavior (src n0 : NodeAddress) (st stSmall : State)
    (m : Message) (rx0 rx1 : List ReplayBatch) (fuel fuel2 : Nat)
    (hfuel : (stateRows st).length < fuel)
    (hf2 : 0 < fuel2)
    (hsmall : (stateRows stSmall).length ≤ 1000) :
    biNext ⟨.partialMsg m :: rx0, none, n0⟩ = (some m, ⟨rx0, none, n0⟩) ∧
    ((biDrain fuel ⟨[.full src st], none, n0⟩).1.map Message.data).flatten.Sublist
      ((stateRows st).map Record.pos) ∧
    (biDrain fuel ⟨[.full src st], none, n0⟩).1.all
      (fun mm => decide (mm.from_ = src) && decide (mm.to_ = n0) && decide (mm.ts = none) &&
        (!mm.data.isEmpty) && decide (mm.data.length ≤ 1000)) = true ∧
    ((biDrain fuel2 ⟨[.full src stSmall], none, n0⟩).1.map Message.data).flatten =
      (stateRows stSmall).map Record.pos ∧
    biNext ⟨rx1, some (src, []), n0⟩ = (none, ⟨rx1, some (src, []), n0⟩) := by
  obtain ⟨f, rfl⟩ : ∃ f, fuel = f + 1 := ⟨fuel - 1, by omega⟩
  have hstep : biDrain (f + 1) ⟨[.full src st], none, n0⟩ =
      biDrain (f + 1) ⟨[], some (src, st.rows), n0⟩ := rfl
  obtain ⟨f2, rfl⟩ : ∃ f2, fuel2 = f2 + 1 := ⟨fuel2 - 1, by omega⟩
  have hstep2 : biDrain (f2 + 1) ⟨[.full src stSmall], none, n0⟩ =
      biDrain (f2 + 1) ⟨[], some (src, stSmall.rows), n0⟩ := rfl
  obtain ⟨h1, h2⟩ := biDrain_state src n0 (f + 1) st.rows [] hfuel
  refine ⟨rfl, ?_, ?_, ?_, ?_⟩
  · rw [hstep]; exact h1
  · rw [hstep]; exact h2
  · rw [hstep2]
    exact biDrain_small src n0 (f2 + 1) stSmall.rows [] (by omega) hsmall
  · simp [biNext, biNextGo, takeGroups]

/-- C4 witness: draining a concrete two-row snapshot. -/
theorem batched_iterator_behavior_witness :
    ((stateRows sW4).length < 3 ∧ 0 < 3 ∧ (stateRows sW4).length ≤ 1000) ∧
    (biNext ⟨.partialMsg mC4 :: [], none, ⟨0, 4⟩⟩ = (some mC4, ⟨[], none, ⟨0, 4⟩⟩) ∧
     ((biDrain 3 ⟨[.full ⟨0, 8⟩ sW4], none, ⟨0, 4⟩⟩).1.map Message.data).flatten.Sublist
       ((stateRows sW4).map Record.pos) ∧
     (biDrain 3 ⟨[.full ⟨0, 8⟩ sW4], none, ⟨0, 4⟩⟩).1.all
       (fun mm => decide (mm.from_ = ⟨0, 8⟩) && decide (mm.to_ = ⟨0, 4⟩) &&
         decide (mm.ts = none) && (!mm.data.isEmpty) &&
         decide (mm.data.length ≤ 1000)) = true ∧
     ((biDrain 3 ⟨[.full ⟨0, 8⟩ sW4], none, ⟨0, 4⟩⟩).1.map Message.data).flatten =
       (stateRows sW4).map Record.pos ∧
     biNext ⟨[], some (⟨0, 8⟩, []), ⟨0, 4⟩⟩ = (none, ⟨[], some (⟨0, 8⟩, []), ⟨0, 4⟩⟩)) :=
  ⟨⟨by decide, by decide, by decide⟩,
   batched_iterator_behavior ⟨0, 8⟩ ⟨0, 4⟩ sW4 sW4 mC4 [] [] 3 3 (by decide) (by decide)
     (by decide)⟩

/-- Removing one address from an output map leaves lookups of other
addresses unchanged. -/
theorem lookupOut_eraseOut_ne (a b : NodeAddress) (hne : b ≠ a) : ∀ (l : OutMap),
    lookupOut (eraseOut l a) b = lookupOut l b := by
  have hne2 : ¬ a = b := fun hh => hne hh.symm
  intro l
  induction l with
  | nil => simp [eraseOut, lookupOut]
  | cons p rest ih =>
    by_cases hp : p.1 = a
    · simp [eraseOut, lookupOut, hp, hne, hne2]
    · by_cases hb : p.1 = b
      · simp [eraseOut, lookupOut, hp, hb, hne, hne2]
      · simp [eraseOut, lookupOut, hp, hb, ih]

/-- The expected feed list only reads the batches of the listed output
nodes, so maps agreeing there give the same feeds. -/
theorem expectedFeeds_congr (nr : List Nat) (mts : Option (Int × Nat)) :
    ∀ (ns : List Node) (eg eg2 : OutMap),
    (∀ n, n ∈ ns → n.is_output = true → lookupOut eg n.addr = lookupOut eg2 n.addr) →
    expectedFeeds nr eg mts ns = expectedFeeds nr eg2 mts ns := by
  intro ns
  induction ns with
  | nil => intro eg eg2 h; rfl
  | cons n rest ih =>
    intro eg eg2 h
    have hrest := ih eg eg2 (fun n2 hn2 ho2 => h n2 (List.mem_cons_of_mem _ hn2) ho2)
    simp only [expectedFeeds]
    by_cases hc : (n.is_output && !(!nr.isEmpty && nr.contains n.addr.loc)) = true
    · have ho : n.is_output = true := by revert hc; cases n.is_output <;> simp
      rw [if_pos hc, if_pos hc, hrest, h n (List.mem_cons_self _ _) ho]
    · rw [if_neg hc, if_neg hc]
      exact hrest

/-- The feeding loop of `transactional_dispatch` produces, in node order,
exactly the spec's expected feeds over the initial egress map, provided the
output nodes have pairwise distinct addresses. -/
theorem feedOutputs_eq_expected (nr : List Nat) (allNodes : List Node)
    (mts : Option (Int × Nat)) : ∀ (ns : List Node) (eg : OutMap) (st : StateMap)
    (eg2 : OutMap) (st2 : StateMap) (feeds : List Message),
    ((ns.filter (fun n => n.is_output)).map (fun n => n.addr)).Nodup →
    feedOutputs nr allNodes mts ns eg st = .ok (eg2, st2, feeds) →
    feeds = expectedFeeds nr eg mts ns := by
  intro ns
  induction ns with
  | nil =>
    intro eg st eg2 st2 feeds hnd h
    simp only [feedOutputs, Except.ok.injEq, Prod.mk.injEq] at h
    simp [expectedFeeds, ← h.2.2]
  | cons n rest ih =>
    intro eg st eg2 st2 feeds hnd h
    by_cases ho : n.is_output = true
    · simp only [List.filter_cons, ho, if_pos, List.map_cons, List.nodup_cons] at hnd
      obtain ⟨hnd1, hnd2⟩ := hnd
      have herase : ∀ n2, n2 ∈ rest → n2.is_output = true →
          lookupOut (eraseOut eg n.addr) n2.addr = lookupOut eg n2.addr := by
        intro n2 hn2 ho2
        apply lookupOut_eraseOut_ne
        intro hEq
        exact hnd1 (hEq ▸ List.mem_map_of_mem _ (List.mem_filter.mpr ⟨hn2, ho2⟩))
      by_cases hskB : (!nr.isEmpty && nr.contains n.addr.loc) = true
      · -- skipped output node: no feed, entry still removed
        have hcond : (n.is_output && !(!nr.isEmpty && nr.contains n.addr.loc)) = false := by
          rw [ho, hskB]; rfl
        cases hlk : lookupOut eg n.addr with
        | some v =>
          simp only [feedOutputs, ho, if_true, hlk] at h
          rw [if_pos hskB] at h
          have hfs := ih (eraseOut eg n.addr) st eg2 st2 feeds hnd2 h
          rw [hfs, expectedFeeds_congr nr mts rest _ _ herase]
          simp only [expectedFeeds, hcond, Bool.false_eq_true, if_false]
        | none =>
          simp only [feedOutputs, ho, if_true, hlk] at h
          rw [if_pos hskB] at h
          have hfs := ih eg st eg2 st2 feeds hnd2 h
          rw [hfs]
          simp only [expectedFeeds, hcond, Bool.false_eq_true, if_false]
      · -- fed output node
        have hskF : (!nr.isEmpty && nr.contains n.addr.loc) = false := by
          revert hskB; cases (!nr.isEmpty && nr.contains n.addr.loc) <;> simp
        have hcond : (n.is_output && !(!nr.isEmpty && nr.contains n.addr.loc)) = true := by
          rw [ho, hskF]; rfl
        cases hlk : lookupOut eg n.addr with
        | some v =>
          simp only [feedOutputs, ho, if_true, hlk] at h
          rw [if_neg hskB] at h
          cases hfn : findNode allNodes n.addr.loc with
          | none => rw [hfn] at h; simp at h
          | some n2 =>
            rw [hfn] at h
            cases hch : n.children.isEmpty with
            | false => simp only [hch, Bool.false_eq_true, if_false] at h; simp at h
            | true =>
              simp only [hch, if_true] at h
              cases hrec : feedOutputs nr allNodes mts rest (eraseOut eg n.addr)
                  ((n2.process true ⟨n.addr, n.addr, v, mts, none⟩ st).1) with
              | error e => rw [hrec] at h; simp at h
              | ok trip =>
                obtain ⟨eg3, st3, fs⟩ := trip
                rw [hrec] at h
                simp only [Except.ok.injEq, Prod.mk.injEq] at h
                obtain ⟨-, -, hfeeds⟩ := h
                rw [← hfeeds]
                have hfs := ih _ _ _ _ _ hnd2 hrec
                rw [hfs, expectedFeeds_congr nr mts rest _ _ herase]
                simp only [expectedFeeds, hcond, eq_self_iff_true, if_true, hlk,
                  Option.getD_some]
        | none =>
          simp only [feedOutputs, ho, if_true, hlk] at h
          rw [if_neg hskB] at h
          cases hfn : findNode allNodes n.addr.loc with
          | none => rw [hfn] at h; simp at h
          | some n2 =>
            rw [hfn] at h
            cases hch : n.children.isEmpty with
            | false => simp only [hch, Bool.false_eq_true, if_false] at h; simp at h
            | true =>
              simp only [hch, if_true] at h
              cases hrec : feedOutputs nr allNodes mts rest eg
                  ((n2.process true ⟨n.addr, n.addr, [], mts, none⟩ st).1) with
              | error e => rw [hrec] at h; simp at h
              | ok trip =>
                obtain ⟨eg3, st3, fs⟩ := trip
                rw [hrec] at h
                simp only [Except.ok.injEq, Prod.mk.injEq] at h
                obtain ⟨-, -, hfeeds⟩ := h
                rw [← hfeeds]
                have hfs := ih _ _ _ _ _ hnd2 hrec
                rw [hfs]
                simp only [expectedFeeds, hcond, eq_self_iff_true, if_true, hlk,
                  Option.getD_none]
    · have hof : n.is_output = false := by revert ho; cases n.is_output <;> simp
      have hcond : (n.is_output && !(!nr.isEmpty && nr.contains n.addr.loc)) = false := by
        rw [hof]; rfl
      simp only [feedOutputs, hof, Bool.false_eq_true, if_false] at h
      simp only [List.filter_cons, hof, Bool.false_eq_true, if_false] at hnd
      have hfs := ih eg st eg2 st2 feeds hnd h
      rw [hfs]
      simp only [expectedFeeds, hcond, Bool.false_eq_true, if_false]

/-- C5 counterexample: a domain whose only output node is not ready feeds
no synthesized message at all during `transactional_dispatch`, although an
output node exists — the not-ready output node is skipped. -/
theorem transactional_dispatch_skips_not_ready_output_cex :
    tdFeeds (transactional_dispatch 2 dC5 [mC5]) = some [] ∧
    (dC5.nodes.filter (fun n => n.is_output)).length = 1 := by
  exact ⟨by decide, by decide⟩

/-- C5 (amended): after the collection phase, `transactional_dispatch`
feeds, for every output node that is not in the not-ready set, exactly one
synthesized message whose data is the batch accumulated for the node's
address (empty if none), with `ts` the batch timestamp and
`from == to == outputaddr`; output nodes in the not-ready set are skipped.
Output addresses are assumed pairwise distinct (they key a hash map in the
source). -/
theorem transactional_dispatch_feeds_ready_outputs (dfuel : Nat) (d : Domain)
    (m0 : Message) (rest : List Message) (msgs : List Message) (eg : OutMap)
    (cur : Option (Nat × List Message)) (st1 : StateMap) (d2 : Domain)
    (feeds : List Message)
    (hm : msgs = m0 :: rest)
    (hcol : collectEgress dfuel d.not_ready d.nodes msgs [] d.replaying_to d.state =
      .ok (eg, cur, st1))
    (htd : transactional_dispatch dfuel d msgs = .ok (d2, feeds))
    (hnodup : ((d.nodes.filter (fun n => n.is_output)).map (fun n => n.addr)).Nodup) :
    feeds = expectedFeeds d.not_ready eg m0.ts d.nodes := by
  subst hm
  simp only [transactional_dispatch, hcol] at htd
  cases hf : feedOutputs d.not_ready d.nodes m0.ts d.nodes eg st1 with
  | error e => rw [hf] at htd; simp at htd
  | ok trip =>
    obtain ⟨eg3, st3, fs⟩ := trip
    rw [hf] at htd
    simp only [Except.ok.injEq, Prod.mk.injEq] at htd
    rw [← htd.2]
    exact feedOutputs_eq_expected d.not_ready d.nodes m0.ts d.nodes eg st1 eg3 st3 fs
      hnodup hf

/-- C5 witness: one ready output node receives exactly the expected
synthesized message. -/
theorem transactional_dispatch_feeds_ready_outputs_witness :
    ([mW5] = mW5 :: ([] : List Message)) ∧
    collectEgress 1 dW5.not_ready dW5.nodes [mW5] [] dW5.replaying_to dW5.state =
      .ok ([], none, []) ∧
    transactional_dispatch 1 dW5 [mW5] = .ok (dW5, [feedW5]) ∧
    ((dW5.nodes.filter (fun n => n.is_output)).map (fun n => n.addr)).Nodup ∧
    [feedW5] = expectedFeeds dW5.not_ready [] mW5.ts dW5.nodes :=
  ⟨rfl, rfl, rfl, by decide,
   transactional_dispatch_feeds_ready_outputs 1 dW5 mW5 [] [mW5] [] none [] dW5 [feedW5]
     rfl rfl rfl (by decide)⟩
